import Mathlib

/-!
Shallow embedding of the `go-env-cli` repository: the key-value parser
(`internal/pkg/utils/utils.go`), the variable repository over a list-modelled
database (`internal/app/models/repository.go`), and the schema migration
runner (`internal/pkg/db/migrations.go`).

Conventions of the embedding:
* `uuid.UUID` values are modelled as `Nat` (they are opaque identifiers).
* `time.Time` values are modelled as `Nat`; every call that reads
  `time.Now()` takes the current instant as an explicit `now` parameter.
* A SQL table is a `List` of row structures; an `UPDATE ... WHERE` is a
  `List.map` that rewrites exactly the rows matching the `WHERE` clause, and
  `RowsAffected` is `List.countP` of the same clause.
* `db.Get` on a `SELECT` returns the first matching row (`List.find?`) or a
  not-found error, matching `sqlx.Get` / `sql.ErrNoRows`.
* Fallible Go functions returning `(T, error)` become `Except String T`;
  functions that also mutate the database return the new database alongside.
-/

namespace GoEnvCli

/-! ## Key-value parser (`internal/pkg/utils/utils.go`) -/

/-- `strings.SplitN(input, "=", 2)` on a character list: `none` when the list
contains no `'='`, otherwise the parts before and after the first `'='`. -/
def splitFirstEq : List Char → Option (List Char × List Char)
  | [] => none
  | c :: cs =>
    if c = '=' then some ([], cs)
    else
      match splitFirstEq cs with
      | none => none
      | some (l, r) => some (c :: l, r)

/-- Go `unicode.IsSpace`: the White_Space code points (Latin-1 cases plus the
higher Unicode space characters). -/
def isSpace (c : Char) : Bool :=
  let n := c.toNat
  (9 ≤ n && n ≤ 13) || n == 32 || n == 0x85 || n == 0xA0 ||
  n == 0x1680 || (0x2000 ≤ n && n ≤ 0x200A) ||
  n == 0x2028 || n == 0x2029 || n == 0x202F || n == 0x205F || n == 0x3000

/-- Go `strings.TrimSpace` on a character list: drop leading and trailing
whitespace. -/
def trimSpace (s : List Char) : List Char :=
  (((s.dropWhile isSpace).reverse).dropWhile isSpace).reverse

/-- `ParseKeyValuePair` (utils.go lines 10-20): split on the first `=`; if no
`=` is present fail with `invalid format: %s (expected key=value)`, otherwise
return both sides trimmed of surrounding whitespace. -/
def ParseKeyValuePair (input : String) : Except String (String × String) :=
  match splitFirstEq input.data with
  | none => .error ("invalid format: " ++ input ++ " (expected key=value)")
  | some (l, r) => .ok (String.mk (trimSpace l), String.mk (trimSpace r))

/-- `true` exactly on the `error` constructor of `Except`. -/
def isErr : Except ε α → Bool
  | .error _ => true
  | .ok _ => false

theorem splitFirstEq_eq_none {cs : List Char} (h : '=' ∉ cs) :
    splitFirstEq cs = none := by
  induction cs with
  | nil => rfl
  | cons c cs ih =>
    simp only [List.mem_cons, not_or] at h
    simp only [splitFirstEq, if_neg (fun hc : c = '=' => h.1 hc.symm), ih h.2]

theorem splitFirstEq_append {l : List Char} (r : List Char) (h : '=' ∉ l) :
    splitFirstEq (l ++ '=' :: r) = some (l, r) := by
  induction l with
  | nil => simp [splitFirstEq]
  | cons c cs ih =>
    simp only [List.mem_cons, not_or] at h
    simp only [List.cons_append, splitFirstEq,
      if_neg (fun hc : c = '=' => h.1 hc.symm), List.append_eq, ih h.2]

theorem splitFirstEq_isSome {cs : List Char} (h : '=' ∈ cs) :
    (splitFirstEq cs).isSome := by
  induction cs with
  | nil => cases h
  | cons c cs ih =>
    by_cases hc : c = '='
    · simp [splitFirstEq, hc]
    · rcases List.mem_cons.mp h with h1 | h1
      · exact absurd h1.symm hc
      · simp only [splitFirstEq, if_neg hc]
        rcases hs : splitFirstEq cs with _ | p
        · rw [hs] at ih; exact absurd (ih h1) (by simp)
        · simp

/-! ## Sorting helper (models `ORDER BY name` and Go `sort.Strings`) -/

/-- Insert `x` into `l` before the first element `y` with `le x y`. -/
def insertSorted (le : α → α → Bool) (x : α) : List α → List α
  | [] => [x]
  | y :: ys => if le x y then x :: y :: ys else y :: insertSorted le x ys

/-- Insertion sort with respect to a boolean comparison: a stable sorted
permutation, as produced by `ORDER BY` and by Go `sort.Strings`. -/
def sortBy (le : α → α → Bool) : List α → List α
  | [] => []
  | x :: xs => insertSorted le x (sortBy le xs)

/-- Lexicographic order on character lists by code point. -/
def strLeChars : List Char → List Char → Bool
  | [], _ => true
  | _ :: _, [] => false
  | a :: as, b :: bs =>
    if a.toNat < b.toNat then true
    else if b.toNat < a.toNat then false
    else strLeChars as bs

/-- Lexicographic order on strings (agrees with Go string comparison on
ASCII data). -/
def strLe (a b : String) : Bool := strLeChars a.data b.data

theorem mem_insertSorted {le : α → α → Bool} {x a : α} {l : List α} :
    a ∈ insertSorted le x l ↔ a = x ∨ a ∈ l := by
  induction l with
  | nil => simp [insertSorted]
  | cons y ys ih =>
    by_cases h : le x y
    · simp [insertSorted, h]
    · simp only [insertSorted, if_neg h, List.mem_cons, ih]
      tauto

theorem mem_sortBy {le : α → α → Bool} {a : α} {l : List α} :
    a ∈ sortBy le l ↔ a ∈ l := by
  induction l with
  | nil => simp [sortBy]
  | cons x xs ih => simp [sortBy, mem_insertSorted, ih]

theorem head?_insertSorted {le : α → α → Bool} (x : α) (l : List α) :
    (insertSorted le x l).head? = some x ∨ (insertSorted le x l).head? = l.head? := by
  cases l with
  | nil => left; rfl
  | cons y ys =>
    by_cases h : le x y
    · left; simp [insertSorted, h]
    · right; simp [insertSorted, h]

theorem chain'_insertSorted {le : α → α → Bool}
    (htot : ∀ a b, le a b = true ∨ le b a = true) (x : α) {l : List α}
    (hl : l.Chain' (fun a b => le a b = true)) :
    (insertSorted le x l).Chain' (fun a b => le a b = true) := by
  induction l with
  | nil => simp [insertSorted]
  | cons y ys ih =>
    rcases List.chain'_cons'.mp hl with ⟨hy, hys⟩
    by_cases h : le x y
    · simp only [insertSorted, if_pos h]
      refine List.chain'_cons'.mpr ⟨?_, hl⟩
      intro z hz
      simp only [List.head?_cons, Option.mem_def, Option.some.injEq] at hz
      subst hz
      exact h
    · simp only [insertSorted, if_neg h]
      refine List.chain'_cons'.mpr ⟨?_, ih hys⟩
      intro z hz
      rcases @head?_insertSorted _ le x ys with hh | hh
      · rw [hh] at hz
        simp only [Option.mem_def, Option.some.injEq] at hz
        subst hz
        rcases htot y x with hyx | hxy
        · exact hyx
        · exact absurd hxy h
      · rw [hh] at hz
        exact hy z hz

theorem chain'_sortBy {le : α → α → Bool}
    (htot : ∀ a b, le a b = true ∨ le b a = true) (l : List α) :
    (sortBy le l).Chain' (fun a b => le a b = true) := by
  induction l with
  | nil => simp [sortBy]
  | cons x xs ih => exact chain'_insertSorted htot x ih

theorem strLeChars_total : ∀ a b, strLeChars a b = true ∨ strLeChars b a = true := by
  intro a
  induction a with
  | nil => intro b; left; cases b <;> rfl
  | cons c cs ih =>
    intro b
    cases b with
    | nil => right; rfl
    | cons d ds =>
      rcases Nat.lt_trichotomy c.toNat d.toNat with hlt | heq | hgt
      · left
        simp [strLeChars, hlt]
      · rcases ih ds with h1 | h1
        · left
          simp [strLeChars, heq, Nat.lt_irrefl, h1]
        · right
          simp [strLeChars, heq, Nat.lt_irrefl, h1]
      · right
        simp [strLeChars, hgt]

/-! ## Data model (`internal/app/models/models.go`)

`Environment` rows take part in no claim; environments appear only through
their ids carried by `EnvVariable` rows. -/

/-- `models.Project`. -/
structure Project where
  id : Nat
  name : String
  description : String
  createdAt : Nat
  updatedAt : Nat
  deletedAt : Option Nat
deriving DecidableEq, Repr

/-- `models.EnvVariable`. -/
structure EnvVariable where
  id : Nat
  projectId : Nat
  environmentId : Nat
  key : String
  value : String
  createdAt : Nat
  updatedAt : Nat
  deletedAt : Option Nat
deriving DecidableEq, Repr

/-- The database state touched by the claims: the `projects` and
`env_variables` tables as row lists. -/
structure DB where
  projects : List Project
  envVariables : List EnvVariable
deriving DecidableEq, Repr

/-- The `WHERE project_id = $1 AND environment_id = $2 AND key = $3` clause
used by `SetEnvVariable`, `GetEnvVariable` and `DeleteEnvVariable`. -/
def tripleMatch (projectID environmentID : Nat) (key : String)
    (v : EnvVariable) : Bool :=
  v.projectId == projectID && v.environmentId == environmentID && v.key == key

/-! ## Variable repository (`internal/app/models/repository.go`) -/

/-- `CreateProject` (repository.go lines 22-66): count active projects with
the given name; fail with already-exists when positive, otherwise insert a
fresh row with `deleted_at = NULL`. -/
def CreateProject (db : DB) (name description : String) (now newID : Nat) :
    DB × Except String Project :=
  let count := db.projects.countP (fun p => p.name == name && p.deletedAt.isNone)
  if count > 0 then
    (db, .error ("a project with name '" ++ name ++ "' already exists"))
  else
    let project : Project :=
      { id := newID, name := name, description := description,
        createdAt := now, updatedAt := now, deletedAt := none }
    ({ db with projects := db.projects ++ [project] }, .ok project)

/-- `GetAllProjects` (repository.go lines 86-101): the active projects,
`ORDER BY name`. -/
def GetAllProjects (db : DB) : List Project :=
  sortBy (fun a b => strLe a.name b.name)
    (db.projects.filter (fun p => p.deletedAt.isNone))

/-- `SoftDeleteProject` (repository.go lines 122-156), in source order: the
`UPDATE projects` runs first, then the cascade `UPDATE env_variables` runs
unconditionally, and only afterwards `RowsAffected` of the first update is
inspected to decide between success and the not-found error. -/
def SoftDeleteProject (db : DB) (id now : Nat) : DB × Except String Unit :=
  let rowsAffected :=
    db.projects.countP (fun p => p.id == id && p.deletedAt.isNone)
  let projects1 := db.projects.map (fun p =>
    if p.id == id && p.deletedAt.isNone then
      { p with deletedAt := some now, updatedAt := now }
    else p)
  let envVariables1 := db.envVariables.map (fun v =>
    if v.projectId == id && v.deletedAt.isNone then
      { v with deletedAt := some now, updatedAt := now }
    else v)
  let db1 : DB := { projects := projects1, envVariables := envVariables1 }
  if rowsAffected == 0 then
    (db1, .error ("no project found with ID " ++ toString id))
  else
    (db1, .ok ())

/-- `SetEnvVariable` (repository.go lines 240-320): look up any row for the
triple (active or not); an active row is updated in place (`value`,
`updated_at`), a soft-deleted row is reactivated (`value`, `updated_at`,
`deleted_at = NULL`), and only when no row exists is a fresh row inserted.
The two `UPDATE ... WHERE id = $3` statements are maps keyed on the row id. -/
def SetEnvVariable (db : DB) (projectID environmentID : Nat)
    (key value : String) (now newID : Nat) : DB × Except String EnvVariable :=
  match db.envVariables.find? (tripleMatch projectID environmentID key) with
  | some existingVar =>
    if existingVar.deletedAt.isNone then
      let updated : EnvVariable :=
        { existingVar with value := value, updatedAt := now }
      ({ db with envVariables := db.envVariables.map (fun v =>
          if v.id == existingVar.id then
            { v with value := value, updatedAt := now }
          else v) },
        .ok updated)
    else
      let reactivated : EnvVariable :=
        { existingVar with value := value, updatedAt := now, deletedAt := none }
      ({ db with envVariables := db.envVariables.map (fun v =>
          if v.id == existingVar.id then
            { v with value := value, updatedAt := now, deletedAt := none }
          else v) },
        .ok reactivated)
  | none =>
    let newVar : EnvVariable :=
      { id := newID, projectId := projectID, environmentId := environmentID,
        key := key, value := value, createdAt := now, updatedAt := now,
        deletedAt := none }
    ({ db with envVariables := db.envVariables ++ [newVar] }, .ok newVar)

/-- `GetEnvVariable` (repository.go lines 323-337): the active row for the
triple, or the wrapped `sql.ErrNoRows` not-found error. -/
def GetEnvVariable (db : DB) (projectID environmentID : Nat) (key : String) :
    Except String EnvVariable :=
  match db.envVariables.find? (fun v =>
      tripleMatch projectID environmentID key v && v.deletedAt.isNone) with
  | some v => .ok v
  | none => .error "failed to get environment variable: sql: no rows in result set"

/-- `DeleteEnvVariable` (repository.go lines 358-381): soft-delete every
active row for the triple, then fail with not-found when `RowsAffected`
was zero. -/
def DeleteEnvVariable (db : DB) (projectID environmentID : Nat) (key : String)
    (now : Nat) : DB × Except String Unit :=
  let rowsAffected := db.envVariables.countP (fun v =>
    tripleMatch projectID environmentID key v && v.deletedAt.isNone)
  let db1 : DB := { db with envVariables := db.envVariables.map (fun v =>
    if tripleMatch projectID environmentID key v && v.deletedAt.isNone then
      { v with deletedAt := some now, updatedAt := now }
    else v) }
  if rowsAffected == 0 then
    (db1, .error ("no environment variable found with key " ++ key))
  else
    (db1, .ok ())

/-! ## Database views and invariants -/

/-- All rows (active or soft-deleted) for a triple. -/
def rowsFor (db : DB) (projectID environmentID : Nat) (key : String) :
    List EnvVariable :=
  db.envVariables.filter (tripleMatch projectID environmentID key)

/-- The active (`deleted_at IS NULL`) rows for a triple. -/
def activeRowsFor (db : DB) (projectID environmentID : Nat) (key : String) :
    List EnvVariable :=
  db.envVariables.filter (fun v =>
    tripleMatch projectID environmentID key v && v.deletedAt.isNone)

/-- The active variables belonging to a project. -/
def activeVarsForProject (db : DB) (projectID : Nat) : List EnvVariable :=
  db.envVariables.filter (fun v =>
    v.projectId == projectID && v.deletedAt.isNone)

/-- The active projects carrying a given id. -/
def activeProjectsWithId (db : DB) (id : Nat) : List Project :=
  db.projects.filter (fun p => p.id == id && p.deletedAt.isNone)

/-- The active projects carrying a given name (the `CreateProject` guard). -/
def activeProjectsNamed (db : DB) (name : String) : List Project :=
  db.projects.filter (fun p => p.name == name && p.deletedAt.isNone)

/-- Two variable rows address the same logical slot. -/
def sameTriple (a b : EnvVariable) : Prop :=
  a.projectId = b.projectId ∧ a.environmentId = b.environmentId ∧ a.key = b.key

instance : DecidablePred fun p : EnvVariable × EnvVariable => sameTriple p.1 p.2 :=
  fun p => by unfold sameTriple; infer_instance

/-- No two rows of `env_variables` share a `(project_id, environment_id, key)`
triple: the schema-level shape `SetEnvVariable` maintains, since it inserts
only when no row (active or soft-deleted) exists for the triple. -/
def UniqueTriples (db : DB) : Prop :=
  db.envVariables.Pairwise (fun a b => ¬ sameTriple a b)

/-- All `env_variables` ids are distinct (they are `uuid.New()` values). -/
def UniqueIds (db : DB) : Prop :=
  db.envVariables.Pairwise (fun a b => a.id ≠ b.id)

/-- A candidate id for `uuid.New()`: unused by every existing variable row. -/
def FreshVarId (db : DB) (id : Nat) : Prop :=
  ∀ v ∈ db.envVariables, v.id ≠ id

/-! ## Migration runner (`internal/pkg/db/migrations.go`) -/

/-- A migration file: its full path and its SQL text (`os.ReadFile` is
modelled as the content travelling with the path). -/
structure Migration where
  path : String
  content : String
deriving DecidableEq, Repr

/-- The bookkeeping state MigrateUp manipulates: the `schema_migrations`
table (`version` is its primary key, rows in insertion order) and the list
of migration SQL texts whose transactions committed. -/
structure MigState where
  appliedVersions : List String
  sqlEffects : List String
deriving DecidableEq, Repr

/-- `filepath.Base`: the last element of the path after dropping trailing
slashes; `"."` for the empty path and `"/"` for an all-slash path. -/
def baseName (p : String) : String :=
  if p = "" then "."
  else
    let trimmed := (p.data.reverse.dropWhile (fun c => c = '/')).reverse
    if trimmed = [] then "/"
    else String.mk ((trimmed.reverse.takeWhile (fun c => c ≠ '/')).reverse)

/-- `.sql`-suffix test on the character list of a path. -/
def hasSqlSuffix (p : String) : Bool :=
  ".sql".data.isSuffixOf p.data

/-- `NewMigrationManager` (migrations.go lines 21-45): keep the files whose
path ends in `.sql` and sort them by full path (`sort.Strings`). The
filesystem walk itself is modelled as the given file list. -/
def NewMigrationManager (files : List Migration) : List Migration :=
  sortBy (fun a b => strLe a.path b.path) (files.filter (fun f => hasSqlSuffix f.path))

/-- One step of `MigrateUp`'s loop over `m.migrations` (migrations.go lines
77-113). `execOk` says whether executing a SQL text succeeds. `applied0` is
the applied-version set loaded once before the loop — the code never updates
it inside the loop. A migration whose basename is in `applied0` is skipped.
Otherwise its SQL runs inside a transaction: if the SQL fails the transaction
is rolled back and the run aborts; if the bookkeeping `INSERT` violates the
`version` primary key the transaction is likewise rolled back and the run
aborts; otherwise the commit appends the version row and the SQL effect.
The middle component accumulates the versions whose SQL was executed
(including a failed execution) during this run. -/
def migrateLoop (execOk : String → Bool) (applied0 : List String) :
    List Migration → MigState → List String →
    MigState × List String × Except String Unit
  | [], st, log => (st, log, .ok ())
  | mig :: rest, st, log =>
    let version := baseName mig.path
    if applied0.contains version then
      migrateLoop execOk applied0 rest st log
    else if execOk mig.content = false then
      (st, log ++ [version], .error ("error executing migration " ++ version))
    else if st.appliedVersions.contains version then
      (st, log ++ [version], .error ("error recording migration " ++ version))
    else
      migrateLoop execOk applied0 rest
        { appliedVersions := st.appliedVersions ++ [version],
          sqlEffects := st.sqlEffects ++ [mig.content] }
        (log ++ [version])

/-- `MigrateUp` (migrations.go lines 48-116): create the bookkeeping table if
absent (a no-op on the modelled state), load the applied versions once, and
run the loop. Returns the final state, the versions whose SQL was executed
this run, and the overall outcome. -/
def MigrateUp (execOk : String → Bool) (migrations : List Migration)
    (st : MigState) : MigState × List String × Except String Unit :=
  migrateLoop execOk st.appliedVersions migrations st []

/-! ## Helper lemmas -/

theorem map_id_of_eq {α : Type _} {l : List α} {f : α → α}
    (h : ∀ a ∈ l, f a = a) : l.map f = l := by
  induction l with
  | nil => rfl
  | cons x xs ih =>
    rw [List.map_cons, h x (List.mem_cons_self x xs),
      ih (fun a ha => h a (List.mem_cons_of_mem x ha))]

theorem string_contains_iff {l : List String} {a : String} :
    l.contains a = true ↔ a ∈ l := by
  simp [List.contains_iff_exists_mem_beq, beq_iff_eq]

theorem tripleMatch_iff {p e : Nat} {k : String} {v : EnvVariable} :
    tripleMatch p e k v = true ↔
      v.projectId = p ∧ v.environmentId = e ∧ v.key = k := by
  simp [tripleMatch, and_assoc]

theorem sameTriple_of_match {p e : Nat} {k : String} {a b : EnvVariable}
    (ha : tripleMatch p e k a = true) (hb : tripleMatch p e k b = true) :
    sameTriple a b := by
  rcases tripleMatch_iff.mp ha with ⟨h1, h2, h3⟩
  rcases tripleMatch_iff.mp hb with ⟨g1, g2, g3⟩
  exact ⟨h1.trans g1.symm, h2.trans g2.symm, h3.trans g3.symm⟩

theorem find?_triple_decomp {db : DB} {p e : Nat} {k : String} {ex : EnvVariable}
    (Htr : UniqueTriples db) (Hid : UniqueIds db)
    (hfind : db.envVariables.find? (tripleMatch p e k) = some ex) :
    tripleMatch p e k ex = true ∧
    ∃ as bs, db.envVariables = as ++ ex :: bs ∧
      (∀ a ∈ as, tripleMatch p e k a = false) ∧
      (∀ b ∈ bs, tripleMatch p e k b = false) ∧
      (∀ a ∈ as, a.id ≠ ex.id) ∧ (∀ b ∈ bs, ex.id ≠ b.id) := by
  obtain ⟨hex, as, bs, hl, has⟩ := List.find?_eq_some.mp hfind
  unfold UniqueTriples at Htr
  unfold UniqueIds at Hid
  rw [hl] at Htr Hid
  obtain ⟨-, htr2, -⟩ := List.pairwise_append.mp Htr
  obtain ⟨-, hid2, hid3⟩ := List.pairwise_append.mp Hid
  refine ⟨hex, as, bs, hl, ?_, ?_, ?_, ?_⟩
  · intro a ha
    have := has a ha
    simpa using this
  · intro b hb
    by_contra hb'
    rw [Bool.not_eq_false] at hb'
    exact (List.pairwise_cons.mp htr2).1 b hb (sameTriple_of_match hex hb')
  · intro a ha
    exact hid3 a ha ex (List.mem_cons_self ex bs)
  · intro b hb
    exact (List.pairwise_cons.mp hid2).1 b hb

theorem map_guarded_replace {g : EnvVariable → EnvVariable} {ex : EnvVariable}
    {as bs : List EnvVariable}
    (has : ∀ a ∈ as, a.id ≠ ex.id) (hbs : ∀ b ∈ bs, ex.id ≠ b.id) :
    (as ++ ex :: bs).map (fun r => if r.id == ex.id then g r else r) =
      as ++ g ex :: bs := by
  rw [List.map_append, List.map_cons]
  congr 1
  · exact map_id_of_eq (fun a ha => by simp [has a ha])
  · congr 1
    · simp
    · exact map_id_of_eq (fun b hb => by
        have hne : b.id ≠ ex.id := fun h => hbs b hb h.symm
        simp [hne])

theorem filter_append_single {α : Type _} {q : α → Bool} {x : α}
    {as bs : List α} (hx : q x = true)
    (has : ∀ a ∈ as, q a = false) (hbs : ∀ b ∈ bs, q b = false) :
    (as ++ x :: bs).filter q = [x] := by
  rw [List.filter_append, List.filter_cons_of_pos hx,
    List.filter_eq_nil_iff.mpr (by intro a ha; simp [has a ha]),
    List.filter_eq_nil_iff.mpr (by intro b hb; simp [hbs b hb])]
  rfl

/-- The record updates used by the repository leave a row's identity — its
`id`, the triple, and `created_at` — untouched. -/
def keepsSlot (g : EnvVariable → EnvVariable) : Prop :=
  ∀ r, (g r).id = r.id ∧ (g r).projectId = r.projectId ∧
    (g r).environmentId = r.environmentId ∧ (g r).key = r.key ∧
    (g r).createdAt = r.createdAt

theorem keepsSlot_ite {g : EnvVariable → EnvVariable} {c : EnvVariable → Bool}
    (hg : keepsSlot g) : keepsSlot (fun r => if c r then g r else r) := by
  intro r
  by_cases h : c r
  · simpa [h] using hg r
  · simp [h]

theorem keepsSlot_iteId {g : EnvVariable → EnvVariable} {i : Nat}
    (hg : keepsSlot g) : keepsSlot (fun r => if r.id == i then g r else r) := by
  intro r
  by_cases h : r.id == i
  · simpa [h] using hg r
  · simp [h]

theorem pairwise_noSameTriple_map {l : List EnvVariable}
    {f : EnvVariable → EnvVariable} (hf : keepsSlot f)
    (h : l.Pairwise fun a b => ¬ sameTriple a b) :
    (l.map f).Pairwise fun a b => ¬ sameTriple a b := by
  rw [List.pairwise_map]
  refine h.imp ?_
  intro a b hab hst
  apply hab
  obtain ⟨-, ha2, ha3, ha4, -⟩ := hf a
  obtain ⟨-, hb2, hb3, hb4, -⟩ := hf b
  rcases hst with ⟨s1, s2, s3⟩
  refine ⟨?_, ?_, ?_⟩
  · rw [← ha2, ← hb2]; exact s1
  · rw [← ha3, ← hb3]; exact s2
  · rw [← ha4, ← hb4]; exact s3

theorem pairwise_neId_map {l : List EnvVariable}
    {f : EnvVariable → EnvVariable} (hf : keepsSlot f)
    (h : l.Pairwise fun a b => a.id ≠ b.id) :
    (l.map f).Pairwise fun a b => a.id ≠ b.id := by
  rw [List.pairwise_map]
  refine h.imp ?_
  intro a b hab hst
  apply hab
  rw [← (hf a).1, ← (hf b).1]
  exact hst

theorem updVal_keepsSlot (v : String) (t : Nat) :
    keepsSlot (fun r => { r with value := v, updatedAt := t }) :=
  fun _ => ⟨rfl, rfl, rfl, rfl, rfl⟩

theorem updReact_keepsSlot (v : String) (t : Nat) :
    keepsSlot (fun r => { r with value := v, updatedAt := t, deletedAt := none }) :=
  fun _ => ⟨rfl, rfl, rfl, rfl, rfl⟩

theorem softDel_keepsSlot (t : Nat) :
    keepsSlot (fun r => { r with deletedAt := some t, updatedAt := t }) :=
  fun _ => ⟨rfl, rfl, rfl, rfl, rfl⟩

theorem filter_length_le_one {α : Type _} {R : α → α → Prop} {q : α → Bool}
    {l : List α} (h : l.Pairwise R)
    (hq : ∀ a b, q a = true → q b = true → R a b → False) :
    (l.filter q).length ≤ 1 := by
  induction l with
  | nil => simp
  | cons a as ih =>
    rcases List.pairwise_cons.mp h with ⟨ha, has⟩
    by_cases hqa : q a = true
    · rw [List.filter_cons_of_pos hqa,
        List.filter_eq_nil_iff.mpr (fun b hb hqb => hq a b hqa hqb (ha b hb))]
      simp
    · rw [List.filter_cons_of_neg (by simpa using hqa)]
      exact ih has

theorem eq_single_of_mem_of_le_one {α : Type _} {l : List α} {x : α}
    (hx : x ∈ l) (h : l.length ≤ 1) : l = [x] := by
  cases l with
  | nil => cases hx
  | cons a as =>
    cases as with
    | nil =>
      have := List.mem_singleton.mp hx
      subst this
      rfl
    | cons b bs => simp at h

theorem find?_of_filter_single {α : Type _} {q : α → Bool} {l : List α} {x : α}
    (h : l.filter q = [x]) : l.find? q = some x := by
  induction l with
  | nil => simp at h
  | cons a as ih =>
    by_cases ha : q a = true
    · rw [List.filter_cons_of_pos ha] at h
      injection h with h1 h2
      subst h1
      simp [List.find?_cons, ha]
    · rw [List.filter_cons_of_neg (by simpa using ha)] at h
      have ha2 : q a = false := by simpa using ha
      simp only [List.find?_cons, ha2]
      exact ih h

theorem rowsFor_length_le_one {db : DB} {p e : Nat} {k : String}
    (Htr : UniqueTriples db) : (rowsFor db p e k).length ≤ 1 :=
  filter_length_le_one Htr
    (fun _ _ ha hb hR => hR (sameTriple_of_match ha hb))

theorem activeRowsFor_eq (db : DB) (p e : Nat) (k : String) :
    activeRowsFor db p e k =
      (rowsFor db p e k).filter (fun v => v.deletedAt.isNone) := by
  unfold activeRowsFor rowsFor
  rw [List.filter_filter]
  exact List.filter_congr (fun a _ => by rw [Bool.and_comm])

theorem rowsFor_of_activeRowsFor_single {db : DB} {p e : Nat} {k : String}
    {ex : EnvVariable} (Htr : UniqueTriples db)
    (h : activeRowsFor db p e k = [ex]) : rowsFor db p e k = [ex] := by
  have hmem : ex ∈ activeRowsFor db p e k := by
    rw [h]; exact List.mem_singleton_self ex
  rw [activeRowsFor_eq] at hmem
  exact eq_single_of_mem_of_le_one (List.mem_filter.mp hmem).1
    (rowsFor_length_le_one Htr)

theorem active_facts {db : DB} {p e : Nat} {k : String} {ex : EnvVariable}
    (h : activeRowsFor db p e k = [ex]) :
    ex ∈ db.envVariables ∧ tripleMatch p e k ex = true ∧
      ex.deletedAt = none := by
  have hmem : ex ∈ activeRowsFor db p e k := by
    rw [h]; exact List.mem_singleton_self ex
  obtain ⟨h1, h2⟩ := List.mem_filter.mp hmem
  rw [Bool.and_eq_true] at h2
  exact ⟨h1, h2.1, Option.isNone_iff_eq_none.mp h2.2⟩

theorem SetEnvVariable_update {db : DB} {p e : Nat} {k : String}
    {ex : EnvVariable} {v : String} {t nid : Nat}
    (Htr : UniqueTriples db) (Hid : UniqueIds db)
    (hfind : db.envVariables.find? (tripleMatch p e k) = some ex)
    (hact : ex.deletedAt = none) :
    ∃ as bs,
      db.envVariables = as ++ ex :: bs ∧
      (∀ a ∈ as, tripleMatch p e k a = false) ∧
      (∀ b ∈ bs, tripleMatch p e k b = false) ∧
      SetEnvVariable db p e k v t nid =
        ({ projects := db.projects,
           envVariables := as ++ { ex with value := v, updatedAt := t } :: bs },
         .ok { ex with value := v, updatedAt := t }) := by
  obtain ⟨hex, as, bs, hl, hnas, hnbs, hias, hibs⟩ :=
    find?_triple_decomp Htr Hid hfind
  refine ⟨as, bs, hl, hnas, hnbs, ?_⟩
  unfold SetEnvVariable
  rw [hfind]
  simp only [hact, Option.isNone_none, if_true]
  rw [hl, map_guarded_replace hias hibs, hact]

theorem SetEnvVariable_reactivate {db : DB} {p e : Nat} {k : String}
    {ex : EnvVariable} {v : String} {t nid : Nat} {d : Nat}
    (Htr : UniqueTriples db) (Hid : UniqueIds db)
    (hfind : db.envVariables.find? (tripleMatch p e k) = some ex)
    (hdel : ex.deletedAt = some d) :
    ∃ as bs,
      db.envVariables = as ++ ex :: bs ∧
      (∀ a ∈ as, tripleMatch p e k a = false) ∧
      (∀ b ∈ bs, tripleMatch p e k b = false) ∧
      SetEnvVariable db p e k v t nid =
        ({ projects := db.projects,
           envVariables :=
             as ++ { ex with value := v, updatedAt := t, deletedAt := none } :: bs },
         .ok { ex with value := v, updatedAt := t, deletedAt := none }) := by
  obtain ⟨hex, as, bs, hl, hnas, hnbs, hias, hibs⟩ :=
    find?_triple_decomp Htr Hid hfind
  refine ⟨as, bs, hl, hnas, hnbs, ?_⟩
  unfold SetEnvVariable
  rw [hfind]
  simp only [hdel, Option.isNone_some, Bool.false_eq_true, if_false]
  rw [hl, map_guarded_replace hias hibs]

theorem SetEnvVariable_insert {db : DB} {p e : Nat} {k : String}
    {v : String} {t nid : Nat}
    (hempty : rowsFor db p e k = []) :
    SetEnvVariable db p e k v t nid =
      ({ projects := db.projects,
         envVariables := db.envVariables ++
           [{ id := nid, projectId := p, environmentId := e, key := k,
              value := v, createdAt := t, updatedAt := t, deletedAt := none }] },
       .ok { id := nid, projectId := p, environmentId := e, key := k,
             value := v, createdAt := t, updatedAt := t, deletedAt := none }) := by
  have hfind : db.envVariables.find? (tripleMatch p e k) = none :=
    List.find?_eq_none.mpr (List.filter_eq_nil_iff.mp hempty)
  unfold SetEnvVariable
  rw [hfind]

/-! ## Claim theorems: key-value parser -/

/-- Claim C6: for every input string, the key-value parser splits on the
first `=` and returns both sides trimmed of surrounding whitespace; it fails
with a format error whose message echoes the original input exactly when the
input contains no `=`; an input with `=` and an empty right-hand side yields
an empty-string value, not an error, so `"KEY=value"` yields
`("KEY","value")`, `"  KEY  =  value  "` yields `("KEY","value")`, and
`"KEY="` yields `("KEY","")`. -/
theorem claim_C6_parse_key_value_pair :
    (∀ input : String, '=' ∉ input.data →
      ParseKeyValuePair input =
        .error ("invalid format: " ++ input ++ " (expected key=value)")) ∧
    (∀ l r : List Char, '=' ∉ l →
      ParseKeyValuePair (String.mk (l ++ '=' :: r)) =
        .ok (String.mk (trimSpace l), String.mk (trimSpace r))) ∧
    ParseKeyValuePair "KEY=value" = .ok ("KEY", "value") ∧
    ParseKeyValuePair "  KEY  =  value  " = .ok ("KEY", "value") ∧
    ParseKeyValuePair "KEY=" = .ok ("KEY", "") := by
  refine ⟨?_, ?_, ?_, ?_, ?_⟩
  · intro input h
    unfold ParseKeyValuePair
    rw [splitFirstEq_eq_none h]
  · intro l r h
    unfold ParseKeyValuePair
    rw [show (String.mk (l ++ '=' :: r)).data = l ++ '=' :: r from rfl,
      splitFirstEq_append r h]
  · rfl
  · rfl
  · rfl

/-- Witness for C6 at concrete inputs: `"KEY"` (no `=`) fails with the error
message that echoes the input. -/
theorem claim_C6_parse_key_value_pair_witness :
    ParseKeyValuePair "KEY" =
      .error ("invalid format: " ++ "KEY" ++ " (expected key=value)") :=
  claim_C6_parse_key_value_pair.1 "KEY" (by decide)

/-- Claim C10: the parser errors exactly when the input has no `=`; in
particular `"=value"` (empty left-hand side) succeeds with an empty-string
key, so empty keys are accepted at the public parsing interface. -/
theorem claim_C10_parse_error_iff_no_equals :
    (∀ input : String,
      isErr (ParseKeyValuePair input) = true ↔ '=' ∉ input.data) ∧
    ParseKeyValuePair "=value" = .ok ("", "value") := by
  constructor
  · intro input
    constructor
    · intro herr hmem
      have h1 := @splitFirstEq_isSome input.data hmem
      unfold ParseKeyValuePair at herr
      rcases hs : splitFirstEq input.data with _ | ⟨l, r⟩
      · rw [hs] at h1
        simp at h1
      · rw [hs] at herr
        simp [isErr] at herr
    · intro hmem
      unfold ParseKeyValuePair
      rw [splitFirstEq_eq_none hmem]
      rfl
  · rfl

/-- Witness for C10 at a concrete input: `"KEY"` has no `=` and the parser
errors on it. -/
theorem claim_C10_parse_error_iff_no_equals_witness :
    isErr (ParseKeyValuePair "KEY") = true ↔ '=' ∉ ("KEY" : String).data :=
  claim_C10_parse_error_iff_no_equals.1 "KEY"

/-! ## SoftDeleteProject helper lemmas -/

theorem SoftDeleteProject_state (db : DB) (id now : Nat) :
    (SoftDeleteProject db id now).1 =
      { projects := db.projects.map (fun p =>
          if p.id == id && p.deletedAt.isNone then
            { p with deletedAt := some now, updatedAt := now }
          else p),
        envVariables := db.envVariables.map (fun v =>
          if v.projectId == id && v.deletedAt.isNone then
            { v with deletedAt := some now, updatedAt := now }
          else v) } := by
  unfold SoftDeleteProject
  by_cases h : (db.projects.countP (fun p => p.id == id && p.deletedAt.isNone) == 0) = true <;>
    simp only [h, if_true, if_false] <;> rfl

theorem SoftDeleteProject_err_iff (db : DB) (id now : Nat) :
    isErr (SoftDeleteProject db id now).2 = true ↔
      activeProjectsWithId db id = [] := by
  unfold SoftDeleteProject activeProjectsWithId
  rw [List.countP_eq_length_filter]
  by_cases h : (db.projects.filter fun p => p.id == id && p.deletedAt.isNone) = []
  · simp [h, isErr]
  · simp [h, isErr, List.length_eq_zero]

theorem activeVarsForProject_after_softDelete (db : DB) (id now : Nat) :
    activeVarsForProject (SoftDeleteProject db id now).1 id = [] := by
  rw [SoftDeleteProject_state]
  unfold activeVarsForProject
  refine List.filter_eq_nil_iff.mpr ?_
  intro v hv
  obtain ⟨w, hw, rfl⟩ := List.mem_map.mp hv
  by_cases hc : (w.projectId == id && w.deletedAt.isNone) = true
  · rw [if_pos hc]
    simp
  · rw [if_neg hc]
    simpa using hc

theorem activeProjectsWithId_after_softDelete (db : DB) (id now : Nat) :
    activeProjectsWithId (SoftDeleteProject db id now).1 id = [] := by
  rw [SoftDeleteProject_state]
  unfold activeProjectsWithId
  refine List.filter_eq_nil_iff.mpr ?_
  intro p hp
  obtain ⟨w, hw, rfl⟩ := List.mem_map.mp hp
  by_cases hc : (w.id == id && w.deletedAt.isNone) = true
  · rw [if_pos hc]
    simp
  · rw [if_neg hc]
    simpa using hc

theorem cascade_member_after_softDelete (db : DB) (id now : Nat) :
    ∀ v ∈ db.envVariables, v.projectId = id → v.deletedAt = none →
      { v with deletedAt := some now, updatedAt := now } ∈
        (SoftDeleteProject db id now).1.envVariables := by
  intro v hv h1 h2
  rw [SoftDeleteProject_state]
  have hc : (v.projectId == id && v.deletedAt.isNone) = true := by
    simp [h1, h2]
  refine List.mem_map.mpr ⟨v, hv, ?_⟩
  simp only [hc, if_true]

theorem getAllProjects_absent_after_softDelete (db : DB) (id now : Nat) :
    ∀ q ∈ GetAllProjects (SoftDeleteProject db id now).1, q.id ≠ id := by
  intro q hq
  unfold GetAllProjects at hq
  rw [mem_sortBy] at hq
  obtain ⟨hq1, hq2⟩ := List.mem_filter.mp hq
  rw [SoftDeleteProject_state] at hq1
  obtain ⟨w, hw, hmap⟩ := List.mem_map.mp hq1
  by_cases hc : (w.id == id && w.deletedAt.isNone) = true
  · rw [if_pos hc] at hmap
    rw [← hmap] at hq2
    simp at hq2
  · rw [if_neg hc] at hmap
    subst hmap
    intro hqid
    apply hc
    simp [hqid, hq2]

/-! ## Claim theorems: projects -/

/-- Claim C3: `SoftDeleteProject` on an active project soft-deletes the
project row (setting `deleted_at`/`updated_at` to the call instant),
cascades the soft-delete to all of the project's active variables (leaving
zero active variables for the project), makes the project absent from
`GetAllProjects`, and fails with an error exactly when no active project
with the given id exists. -/
theorem claim_C3_soft_delete_project (db : DB) (id now : Nat) :
    (isErr (SoftDeleteProject db id now).2 = true ↔
      activeProjectsWithId db id = []) ∧
    (activeProjectsWithId db id ≠ [] →
      (SoftDeleteProject db id now).2 = .ok () ∧
      (∀ p ∈ db.projects, p.id = id → p.deletedAt = none →
        { p with deletedAt := some now, updatedAt := now } ∈
          (SoftDeleteProject db id now).1.projects) ∧
      activeVarsForProject (SoftDeleteProject db id now).1 id = [] ∧
      activeProjectsWithId (SoftDeleteProject db id now).1 id = [] ∧
      ∀ q ∈ GetAllProjects (SoftDeleteProject db id now).1, q.id ≠ id) := by
  refine ⟨SoftDeleteProject_err_iff db id now, ?_⟩
  intro hne
  refine ⟨?_, ?_, activeVarsForProject_after_softDelete db id now,
    activeProjectsWithId_after_softDelete db id now,
    getAllProjects_absent_after_softDelete db id now⟩
  · rcases hr : (SoftDeleteProject db id now).2 with msg | u
    · have : isErr (SoftDeleteProject db id now).2 = true := by
        rw [hr]; rfl
      exact absurd ((SoftDeleteProject_err_iff db id now).mp this) hne
    · rfl
  · intro p hp h1 h2
    rw [SoftDeleteProject_state]
    have hc : (p.id == id && p.deletedAt.isNone) = true := by simp [h1, h2]
    refine List.mem_map.mpr ⟨p, hp, ?_⟩
    simp only [hc, if_true]

/-- Witness for C3: a database with one active project (id 1) carrying two
active variables; soft-deleting project 1 succeeds and clears them. -/
theorem claim_C3_soft_delete_project_witness :
    activeProjectsWithId
      ({ projects := [{ id := 1, name := "app", description := "",
                        createdAt := 0, updatedAt := 0, deletedAt := none }],
         envVariables :=
           [{ id := 10, projectId := 1, environmentId := 2, key := "A",
              value := "1", createdAt := 0, updatedAt := 0, deletedAt := none },
            { id := 11, projectId := 1, environmentId := 2, key := "B",
              value := "2", createdAt := 0, updatedAt := 0, deletedAt := none }] } : DB)
      1 ≠ [] ∧
    (SoftDeleteProject
      ({ projects := [{ id := 1, name := "app", description := "",
                        createdAt := 0, updatedAt := 0, deletedAt := none }],
         envVariables :=
           [{ id := 10, projectId := 1, environmentId := 2, key := "A",
              value := "1", createdAt := 0, updatedAt := 0, deletedAt := none },
            { id := 11, projectId := 1, environmentId := 2, key := "B",
              value := "2", createdAt := 0, updatedAt := 0, deletedAt := none }] } : DB)
      1 7).2 = .ok () := by
  refine ⟨by decide, ?_⟩
  exact ((claim_C3_soft_delete_project _ 1 7).2 (by decide)).1

/-- Claim C9: in `SoftDeleteProject` the cascade over `env_variables` runs
before the rows-affected check, so when no active project with the id exists
the call returns the "no project found" error, yet any active variables
referencing that id have already been soft-deleted: the error branch is not
state-preserving for the `env_variables` table. -/
theorem claim_C9_soft_delete_error_still_cascades (db : DB) (id now : Nat)
    (h : activeProjectsWithId db id = []) :
    (SoftDeleteProject db id now).2 =
      .error ("no project found with ID " ++ toString id) ∧
    activeVarsForProject (SoftDeleteProject db id now).1 id = [] ∧
    (∀ v ∈ db.envVariables, v.projectId = id → v.deletedAt = none →
      { v with deletedAt := some now, updatedAt := now } ∈
        (SoftDeleteProject db id now).1.envVariables) := by
  refine ⟨?_, activeVarsForProject_after_softDelete db id now,
    cascade_member_after_softDelete db id now⟩
  have hcnt : (db.projects.countP fun p => p.id == id && p.deletedAt.isNone) = 0 := by
    rw [List.countP_eq_length_filter]
    unfold activeProjectsWithId at h
    rw [h]
    rfl
  unfold SoftDeleteProject
  simp only [hcnt]
  rfl

/-- Witness for C9: a database whose only project with id 1 is already
soft-deleted but which still carries an active variable for project 1; the
call errors, yet the variable is soft-deleted by the cascade. -/
theorem claim_C9_soft_delete_error_still_cascades_witness :
    (SoftDeleteProject
      ({ projects := [{ id := 1, name := "app", description := "",
                        createdAt := 0, updatedAt := 0, deletedAt := some 3 }],
         envVariables :=
           [{ id := 10, projectId := 1, environmentId := 2, key := "A",
              value := "1", createdAt := 0, updatedAt := 0, deletedAt := none }] } : DB)
      1 7).2 = .error ("no project found with ID " ++ toString 1) ∧
    activeVarsForProject
      (SoftDeleteProject
        ({ projects := [{ id := 1, name := "app", description := "",
                          createdAt := 0, updatedAt := 0, deletedAt := some 3 }],
           envVariables :=
             [{ id := 10, projectId := 1, environmentId := 2, key := "A",
                value := "1", createdAt := 0, updatedAt := 0, deletedAt := none }] } : DB)
        1 7).1 1 = [] := by
  have h := claim_C9_soft_delete_error_still_cascades
    ({ projects := [{ id := 1, name := "app", description := "",
                      createdAt := 0, updatedAt := 0, deletedAt := some 3 }],
       envVariables :=
         [{ id := 10, projectId := 1, environmentId := 2, key := "A",
            value := "1", createdAt := 0, updatedAt := 0, deletedAt := none }] } : DB)
    1 7 (by decide)
  exact ⟨h.1, h.2.1⟩

/-- Claim C7: `CreateProject` fails with an already-exists error when an
active project with the same name exists, and succeeds — inserting a new
project row — when the only same-named projects are soft-deleted or when no
project with that name exists at all. -/
theorem claim_C7_create_project (db : DB) (name description : String)
    (now newID : Nat) :
    (activeProjectsNamed db name ≠ [] →
      CreateProject db name description now newID =
        (db, .error ("a project with name '" ++ name ++ "' already exists"))) ∧
    (activeProjectsNamed db name = [] →
      CreateProject db name description now newID =
        ({ projects := db.projects ++
             [{ id := newID, name := name, description := description,
                createdAt := now, updatedAt := now, deletedAt := none }],
           envVariables := db.envVariables },
         .ok { id := newID, name := name, description := description,
               createdAt := now, updatedAt := now, deletedAt := none })) := by
  constructor
  · intro h
    unfold CreateProject
    have hpos : 0 < db.projects.countP (fun p => p.name == name && p.deletedAt.isNone) := by
      rw [List.countP_eq_length_filter]
      unfold activeProjectsNamed at h
      exact List.length_pos.mpr h
    rw [if_pos hpos]
  · intro h
    unfold CreateProject
    have hz : db.projects.countP (fun p => p.name == name && p.deletedAt.isNone) = 0 := by
      rw [List.countP_eq_length_filter]
      unfold activeProjectsNamed at h
      rw [h]
      rfl
    simp only [hz]
    rfl

/-- Witness for C7: creating `"app"` fails when an active `"app"` project
exists, and succeeds when the only `"app"` project is soft-deleted. -/
theorem claim_C7_create_project_witness :
    CreateProject
      ({ projects := [{ id := 1, name := "app", description := "",
                        createdAt := 0, updatedAt := 0, deletedAt := none }],
         envVariables := [] } : DB) "app" "d" 5 9 =
      (({ projects := [{ id := 1, name := "app", description := "",
                         createdAt := 0, updatedAt := 0, deletedAt := none }],
          envVariables := [] } : DB),
       .error ("a project with name '" ++ "app" ++ "' already exists")) ∧
    CreateProject
      ({ projects := [{ id := 1, name := "app", description := "",
                        createdAt := 0, updatedAt := 0, deletedAt := some 2 }],
         envVariables := [] } : DB) "app" "d" 5 9 =
      ({ projects := [{ id := 1, name := "app", description := "",
                        createdAt := 0, updatedAt := 0, deletedAt := some 2 },
                      { id := 9, name := "app", description := "d",
                        createdAt := 5, updatedAt := 5, deletedAt := none }],
         envVariables := [] },
       .ok { id := 9, name := "app", description := "d",
             createdAt := 5, updatedAt := 5, deletedAt := none }) :=
  ⟨(claim_C7_create_project _ "app" "d" 5 9).1 (by decide),
   (claim_C7_create_project _ "app" "d" 5 9).2 (by decide)⟩

theorem map_eq_map_of_eq {α β : Type _} {l : List α} {f g : α → β}
    (h : ∀ a ∈ l, f a = g a) : l.map f = l.map g := by
  induction l with
  | nil => rfl
  | cons x xs ih =>
    rw [List.map_cons, List.map_cons, h x (by simp),
      ih (fun a ha => h a (by simp [ha]))]

/-- The identity projection of a variable row: every field except `value`,
`updated_at` and `deleted_at`. -/
def slotProj (r : EnvVariable) : Nat × Nat × Nat × String × Nat :=
  (r.id, r.projectId, r.environmentId, r.key, r.createdAt)

theorem map_slotProj_map {l : List EnvVariable} {f : EnvVariable → EnvVariable}
    (hf : keepsSlot f) : (l.map f).map slotProj = l.map slotProj := by
  rw [List.map_map]
  refine map_eq_map_of_eq ?_
  intro a _
  obtain ⟨h1, h2, h3, h4, h5⟩ := hf a
  simp [slotProj, Function.comp, h1, h2, h3, h4, h5]

/-! ## Claim theorem: frame effect of SetEnvVariable -/

/-- Claim C8: when a row for the triple already exists (so `SetEnvVariable`
takes the update or the reactivate branch), every row's `id`, `project_id`,
`environment_id`, `key` and `created_at` survive unchanged — only `value`,
`updated_at` and (in the reactivate branch) `deleted_at` are modified — the
table gains no row, the returned row carries the existing row's identity and
original creation timestamp, and in the update branch even `deleted_at` is
untouched for every row. -/
theorem claim_C8_set_preserves_slot_identity (db : DB) (p e : Nat)
    (k v : String) (t nid : Nat) (ex : EnvVariable)
    (hfind : db.envVariables.find? (tripleMatch p e k) = some ex) :
    (SetEnvVariable db p e k v t nid).1.envVariables.map slotProj =
      db.envVariables.map slotProj ∧
    (SetEnvVariable db p e k v t nid).1.envVariables.length =
      db.envVariables.length ∧
    (∃ w, (SetEnvVariable db p e k v t nid).2 = .ok w ∧ w.id = ex.id ∧
      w.projectId = ex.projectId ∧ w.environmentId = ex.environmentId ∧
      w.key = ex.key ∧ w.createdAt = ex.createdAt) ∧
    (ex.deletedAt = none →
      (SetEnvVariable db p e k v t nid).1.envVariables.map (fun r => r.deletedAt) =
        db.envVariables.map (fun r => r.deletedAt)) := by
  unfold SetEnvVariable
  rw [hfind]
  by_cases hdel : ex.deletedAt.isNone = true
  · simp only [hdel, if_true]
    refine ⟨map_slotProj_map (keepsSlot_iteId (updVal_keepsSlot v t)),
      List.length_map _ _, ⟨_, rfl, rfl, rfl, rfl, rfl, rfl⟩, ?_⟩
    intro _
    rw [List.map_map]
    refine map_eq_map_of_eq ?_
    intro a _
    by_cases ha : (a.id == ex.id) = true
    · simp [Function.comp, ha]
    · simp [Function.comp, ha]
  · simp only [hdel, if_false]
    refine ⟨map_slotProj_map (keepsSlot_iteId (updReact_keepsSlot v t)),
      List.length_map _ _, ⟨_, rfl, rfl, rfl, rfl, rfl, rfl⟩, ?_⟩
    intro hnone
    rw [hnone] at hdel
    simp at hdel

/-- Witness for C8: updating the existing active row for
`(1, 2, "A")` keeps its id, triple and creation timestamp. -/
theorem claim_C8_set_preserves_slot_identity_witness :
    (SetEnvVariable
      ({ projects := [],
         envVariables :=
           [{ id := 10, projectId := 1, environmentId := 2, key := "A",
              value := "old", createdAt := 3, updatedAt := 3,
              deletedAt := none }] } : DB)
      1 2 "A" "new" 8 99).1.envVariables.map slotProj =
      (({ projects := [],
          envVariables :=
            [{ id := 10, projectId := 1, environmentId := 2, key := "A",
               value := "old", createdAt := 3, updatedAt := 3,
               deletedAt := none }] } : DB)).envVariables.map slotProj :=
  (claim_C8_set_preserves_slot_identity _ 1 2 "A" "new" 8 99
    { id := 10, projectId := 1, environmentId := 2, key := "A",
      value := "old", createdAt := 3, updatedAt := 3, deletedAt := none }
    (by decide)).1

theorem pairwise_replace {α : Type _} {R : α → α → Prop} {as bs : List α}
    {x y : α} (h : (as ++ x :: bs).Pairwise R)
    (h1 : ∀ a, R a x → R a y) (h2 : ∀ b, R x b → R y b) :
    (as ++ y :: bs).Pairwise R := by
  rw [List.pairwise_append] at h ⊢
  obtain ⟨ha, hxbs, hcross⟩ := h
  rcases List.pairwise_cons.mp hxbs with ⟨hx, hbs⟩
  refine ⟨ha, List.pairwise_cons.mpr ⟨fun b hb => h2 b (hx b hb), hbs⟩, ?_⟩
  intro a haa b hbb
  rcases List.mem_cons.mp hbb with rfl | hb2
  · exact h1 a (hcross a haa x (List.mem_cons_self x bs))
  · exact hcross a haa b (List.mem_cons.mpr (Or.inr hb2))

/-- Master characterisation of `SetEnvVariable` on a well-formed database:
the call succeeds, afterwards exactly one row exists for the triple, that row
is active and holds the new value and timestamp, triple-uniqueness is
preserved, and id-uniqueness is preserved whenever the candidate insert id
is fresh. -/
theorem SetEnvVariable_master (db : DB) (p e : Nat) (k v : String)
    (t nid : Nat) (Htr : UniqueTriples db) (Hid : UniqueIds db) :
    ∃ w, (SetEnvVariable db p e k v t nid).2 = .ok w ∧
      rowsFor (SetEnvVariable db p e k v t nid).1 p e k = [w] ∧
      w.value = v ∧ w.deletedAt = none ∧ w.updatedAt = t ∧
      UniqueTriples (SetEnvVariable db p e k v t nid).1 ∧
      (FreshVarId db nid → UniqueIds (SetEnvVariable db p e k v t nid).1) := by
  rcases hfind : db.envVariables.find? (tripleMatch p e k) with _ | ex
  · have hempty : rowsFor db p e k = [] :=
      List.filter_eq_nil_iff.mpr (List.find?_eq_none.mp hfind)
    rw [SetEnvVariable_insert hempty]
    refine ⟨_, rfl, ?_, rfl, rfl, rfl, ?_, ?_⟩
    · unfold rowsFor at hempty ⊢
      rw [List.filter_append, hempty]
      simp [tripleMatch]
    · unfold UniqueTriples at Htr ⊢
      rw [List.pairwise_append]
      refine ⟨Htr, List.pairwise_singleton _ _, ?_⟩
      intro a ha b hb
      rw [List.mem_singleton] at hb
      subst hb
      intro hst
      refine List.find?_eq_none.mp hfind a ha ?_
      rcases hst with ⟨s1, s2, s3⟩
      exact tripleMatch_iff.mpr ⟨s1, s2, s3⟩
    · intro hf
      unfold UniqueIds at Hid ⊢
      rw [List.pairwise_append]
      refine ⟨Hid, List.pairwise_singleton _ _, ?_⟩
      intro a ha b hb
      rw [List.mem_singleton] at hb
      subst hb
      exact hf a ha
  · have htm : tripleMatch p e k ex = true := List.find?_some hfind
    by_cases hact : ex.deletedAt.isNone = true
    · have hdel := Option.isNone_iff_eq_none.mp hact
      obtain ⟨as, bs, hl, hnas, hnbs, heq⟩ :=
        @SetEnvVariable_update db p e k ex v t nid Htr Hid hfind hdel
      rw [heq]
      refine ⟨_, rfl, ?_, rfl, hdel, rfl, ?_, fun _ => ?_⟩
      · unfold rowsFor
        exact filter_append_single htm hnas hnbs
      · unfold UniqueTriples at Htr ⊢
        rw [hl] at Htr
        exact pairwise_replace Htr (fun a hr => hr) (fun b hr => hr)
      · unfold UniqueIds at Hid ⊢
        rw [hl] at Hid
        exact pairwise_replace Hid (fun a hr => hr) (fun b hr => hr)
    · rcases hdel : ex.deletedAt with _ | d
      · rw [hdel] at hact
        simp at hact
      · obtain ⟨as, bs, hl, hnas, hnbs, heq⟩ :=
          @SetEnvVariable_reactivate db p e k ex v t nid d Htr Hid hfind hdel
        rw [heq]
        refine ⟨_, rfl, ?_, rfl, rfl, rfl, ?_, fun _ => ?_⟩
        · unfold rowsFor
          exact filter_append_single htm hnas hnbs
        · unfold UniqueTriples at Htr ⊢
          rw [hl] at Htr
          exact pairwise_replace Htr (fun a hr => hr) (fun b hr => hr)
        · unfold UniqueIds at Hid ⊢
          rw [hl] at Hid
          exact pairwise_replace Hid (fun a hr => hr) (fun b hr => hr)

/-! ## Claim theorems: SetEnvVariable -/

/-- Claim C1: `SetEnvVariable` follows the tri-state policy on a well-formed
database — an existing active row for the triple is updated in place (value
and `updated_at`), an existing soft-deleted row is reactivated rather than
duplicated, a new row is inserted only when no prior row exists — and
calling it twice with the same triple and two values leaves exactly one
active row for the triple, holding the value of the second call. -/
theorem claim_C1_set_env_variable_tristate (db : DB) (p e : Nat) (k : String)
    (Htr : UniqueTriples db) (Hid : UniqueIds db) :
    (∀ (ex : EnvVariable) (v : String) (t nid : Nat),
      rowsFor db p e k = [ex] → ex.deletedAt = none →
      (SetEnvVariable db p e k v t nid).2 =
        .ok { ex with value := v, updatedAt := t } ∧
      rowsFor (SetEnvVariable db p e k v t nid).1 p e k =
        [{ ex with value := v, updatedAt := t }] ∧
      (SetEnvVariable db p e k v t nid).1.envVariables.length =
        db.envVariables.length) ∧
    (∀ (ex : EnvVariable) (d : Nat) (v : String) (t nid : Nat),
      rowsFor db p e k = [ex] → ex.deletedAt = some d →
      (SetEnvVariable db p e k v t nid).2 =
        .ok { ex with value := v, updatedAt := t, deletedAt := none } ∧
      rowsFor (SetEnvVariable db p e k v t nid).1 p e k =
        [{ ex with value := v, updatedAt := t, deletedAt := none }] ∧
      (SetEnvVariable db p e k v t nid).1.envVariables.length =
        db.envVariables.length) ∧
    (∀ (v : String) (t nid : Nat), rowsFor db p e k = [] →
      SetEnvVariable db p e k v t nid =
        ({ projects := db.projects,
           envVariables := db.envVariables ++
             [{ id := nid, projectId := p, environmentId := e, key := k,
                value := v, createdAt := t, updatedAt := t, deletedAt := none }] },
         .ok { id := nid, projectId := p, environmentId := e, key := k,
               value := v, createdAt := t, updatedAt := t, deletedAt := none })) ∧
    (∀ (v1 v2 : String) (t1 t2 id1 id2 : Nat), FreshVarId db id1 →
      (activeRowsFor
          (SetEnvVariable (SetEnvVariable db p e k v1 t1 id1).1 p e k v2 t2 id2).1
          p e k).map (fun w => w.value) = [v2]) := by
  refine ⟨?_, ?_, ?_, ?_⟩
  · intro ex v t nid h hdel
    have hfind := find?_of_filter_single (q := tripleMatch p e k) h
    obtain ⟨as, bs, hl, hnas, hnbs, heq⟩ :=
      @SetEnvVariable_update db p e k ex v t nid Htr Hid hfind hdel
    have htm : tripleMatch p e k ex = true := List.find?_some hfind
    rw [heq]
    refine ⟨rfl, ?_, ?_⟩
    · unfold rowsFor
      have := filter_append_single (q := tripleMatch p e k)
        (x := { ex with value := v, updatedAt := t }) htm hnas hnbs
      rw [this, hdel]
    · rw [hl]
      simp
  · intro ex d v t nid h hdel
    have hfind := find?_of_filter_single (q := tripleMatch p e k) h
    obtain ⟨as, bs, hl, hnas, hnbs, heq⟩ :=
      @SetEnvVariable_reactivate db p e k ex v t nid d Htr Hid hfind hdel
    have htm : tripleMatch p e k ex = true := List.find?_some hfind
    rw [heq]
    refine ⟨rfl, ?_, ?_⟩
    · unfold rowsFor
      exact filter_append_single htm hnas hnbs
    · rw [hl]
      simp
  · intro v t nid h
    exact SetEnvVariable_insert h
  · intro v1 v2 t1 t2 id1 id2 hf
    obtain ⟨w1, h1ok, h1rows, h1val, h1del, h1upd, H1tr, H1idc⟩ :=
      SetEnvVariable_master db p e k v1 t1 id1 Htr Hid
    obtain ⟨w2, h2ok, h2rows, h2val, h2del, h2upd, H2tr, H2idc⟩ :=
      SetEnvVariable_master (SetEnvVariable db p e k v1 t1 id1).1 p e k v2 t2 id2
        H1tr (H1idc hf)
    rw [activeRowsFor_eq, h2rows,
      List.filter_cons_of_pos (by simp [h2del])]
    simp [h2val]

/-- Witness for C1: two successive sets of `(1, 2, "A")` on the empty
database leave exactly one active row, holding the second value. -/
theorem claim_C1_set_env_variable_tristate_witness :
    (activeRowsFor
        (SetEnvVariable
          (SetEnvVariable ({ projects := [], envVariables := [] } : DB)
            1 2 "A" "first" 5 100).1
          1 2 "A" "second" 6 101).1
        1 2 "A").map (fun w => w.value) = ["second"] :=
  (claim_C1_set_env_variable_tristate
      ({ projects := [], envVariables := [] } : DB) 1 2 "A"
      List.Pairwise.nil List.Pairwise.nil).2.2.2
    "first" "second" 5 6 100 101 (fun v hv => absurd hv (List.not_mem_nil v))

/-! ## DeleteEnvVariable helper lemmas -/

theorem map_pred_replace {g : EnvVariable → EnvVariable}
    {q : EnvVariable → Bool} {ex : EnvVariable} {as bs : List EnvVariable}
    (hex : q ex = true)
    (has : ∀ a ∈ as, q a = false) (hbs : ∀ b ∈ bs, q b = false) :
    (as ++ ex :: bs).map (fun r => if q r then g r else r) =
      as ++ g ex :: bs := by
  rw [List.map_append, List.map_cons]
  congr 1
  · exact map_id_of_eq (fun a ha => by simp [has a ha])
  · congr 1
    · simp [hex]
    · exact map_id_of_eq (fun b hb => by simp [hbs b hb])

theorem DeleteEnvVariable_state (db : DB) (p e : Nat) (k : String) (t : Nat) :
    (DeleteEnvVariable db p e k t).1 =
      { db with envVariables := db.envVariables.map (fun v =>
          if tripleMatch p e k v && v.deletedAt.isNone then
            { v with deletedAt := some t, updatedAt := t }
          else v) } := by
  unfold DeleteEnvVariable
  by_cases hc : (db.envVariables.countP
      (fun v => tripleMatch p e k v && v.deletedAt.isNone) == 0) = true <;>
    simp only [hc, if_true, if_false] <;> rfl

theorem GetEnvVariable_err_of_no_active {db : DB} {p e : Nat} {k : String}
    (h : activeRowsFor db p e k = []) :
    GetEnvVariable db p e k =
      .error "failed to get environment variable: sql: no rows in result set" := by
  unfold activeRowsFor at h
  unfold GetEnvVariable
  rw [List.find?_eq_none.mpr (List.filter_eq_nil_iff.mp h)]

/-- Characterisation of `DeleteEnvVariable` on a well-formed database with a
single active row for the triple: success, the row soft-deleted in place, no
active row left, length and uniqueness invariants preserved. -/
theorem DeleteEnvVariable_spec (db : DB) (p e : Nat) (k : String) (t : Nat)
    (ex : EnvVariable) (Htr : UniqueTriples db) (Hid : UniqueIds db)
    (h : activeRowsFor db p e k = [ex]) :
    (DeleteEnvVariable db p e k t).2 = .ok () ∧
    rowsFor (DeleteEnvVariable db p e k t).1 p e k =
      [{ ex with deletedAt := some t, updatedAt := t }] ∧
    activeRowsFor (DeleteEnvVariable db p e k t).1 p e k = [] ∧
    (DeleteEnvVariable db p e k t).1.envVariables.length =
      db.envVariables.length ∧
    UniqueTriples (DeleteEnvVariable db p e k t).1 ∧
    UniqueIds (DeleteEnvVariable db p e k t).1 := by
  have hrows : rowsFor db p e k = [ex] := rowsFor_of_activeRowsFor_single Htr h
  have hfind := find?_of_filter_single (q := tripleMatch p e k) hrows
  obtain ⟨htm, as, bs, hl, hnas, hnbs, -, -⟩ := find?_triple_decomp Htr Hid hfind
  obtain ⟨-, -, hex_act⟩ := active_facts h
  have hq : (tripleMatch p e k ex && ex.deletedAt.isNone) = true := by
    simp [htm, hex_act]
  have hstate := DeleteEnvVariable_state db p e k t
  have hmap : (DeleteEnvVariable db p e k t).1.envVariables =
      as ++ { ex with deletedAt := some t, updatedAt := t } :: bs := by
    rw [hstate]
    show db.envVariables.map _ = _
    rw [hl]
    exact map_pred_replace hq
      (fun a ha => by simp [hnas a ha])
      (fun b hb => by simp [hnbs b hb])
  refine ⟨?_, ?_, ?_, ?_, ?_, ?_⟩
  · unfold DeleteEnvVariable
    have hcnt : db.envVariables.countP
        (fun v => tripleMatch p e k v && v.deletedAt.isNone) = 1 := by
      rw [List.countP_eq_length_filter]
      unfold activeRowsFor at h
      rw [h]
      rfl
    simp only [hcnt]
    rfl
  · unfold rowsFor
    rw [hmap]
    exact filter_append_single htm hnas hnbs
  · rw [activeRowsFor_eq]
    unfold rowsFor
    rw [hmap, filter_append_single
      (x := { ex with deletedAt := some t, updatedAt := t }) htm hnas hnbs]
    rfl
  · rw [hmap, hl]
    simp
  · unfold UniqueTriples at Htr ⊢
    rw [hmap]
    rw [hl] at Htr
    exact pairwise_replace Htr (fun a hr => hr) (fun b hr => hr)
  · unfold UniqueIds at Hid ⊢
    rw [hmap]
    rw [hl] at Hid
    exact pairwise_replace Hid (fun a hr => hr) (fun b hr => hr)

/-- Claim C2: on a well-formed database with an active row for the triple,
`DeleteEnvVariable` succeeds, a subsequent `GetEnvVariable` fails with the
not-found error, and a subsequent `SetEnvVariable` reactivates the same
logical slot — the one active row afterwards carries the deleted row's id
(and `created_at`), and the table gains no row. -/
theorem claim_C2_delete_then_get_then_set (db : DB) (p e : Nat) (k : String)
    (ex : EnvVariable) (t : Nat)
    (Htr : UniqueTriples db) (Hid : UniqueIds db)
    (h : activeRowsFor db p e k = [ex]) :
    (DeleteEnvVariable db p e k t).2 = .ok () ∧
    GetEnvVariable (DeleteEnvVariable db p e k t).1 p e k =
      .error "failed to get environment variable: sql: no rows in result set" ∧
    (∀ (v : String) (t2 nid : Nat),
      (SetEnvVariable (DeleteEnvVariable db p e k t).1 p e k v t2 nid).1.envVariables.length
          = db.envVariables.length ∧
      activeRowsFor
          (SetEnvVariable (DeleteEnvVariable db p e k t).1 p e k v t2 nid).1
          p e k =
        [{ ex with value := v, updatedAt := t2, deletedAt := none }]) := by
  obtain ⟨hok, hrows1, hact1, hlen1, Htr1, Hid1⟩ :=
    DeleteEnvVariable_spec db p e k t ex Htr Hid h
  refine ⟨hok, GetEnvVariable_err_of_no_active hact1, ?_⟩
  intro v t2 nid
  have hfind1 := find?_of_filter_single (q := tripleMatch p e k) hrows1
  have htm1 : tripleMatch p e k { ex with deletedAt := some t, updatedAt := t } = true :=
    List.find?_some hfind1
  obtain ⟨as, bs, hl1, hnas, hnbs, heq⟩ :=
    @SetEnvVariable_reactivate (DeleteEnvVariable db p e k t).1 p e k
      { ex with deletedAt := some t, updatedAt := t } v t2 nid t Htr1 Hid1 hfind1 rfl
  constructor
  · rw [heq]
    have h2 : (as ++ ({ ex with deletedAt := some t, updatedAt := t } : EnvVariable) :: bs).length =
        db.envVariables.length := by
      rw [← hl1]
      exact hlen1
    simpa using h2
  · have hmap2 :
        (SetEnvVariable (DeleteEnvVariable db p e k t).1 p e k v t2 nid).1.envVariables =
          as ++ ({ ex with value := v, updatedAt := t2, deletedAt := none } : EnvVariable) :: bs := by
      rw [heq]
    rw [activeRowsFor_eq]
    unfold rowsFor
    rw [hmap2, filter_append_single
      (x := ({ ex with value := v, updatedAt := t2, deletedAt := none } : EnvVariable))
      htm1 hnas hnbs]
    rfl

/-- Witness for C2: delete then get then set on a one-row database. -/
theorem claim_C2_delete_then_get_then_set_witness :
    GetEnvVariable
      (DeleteEnvVariable
        ({ projects := [],
           envVariables :=
             [{ id := 10, projectId := 1, environmentId := 2, key := "A",
                value := "v1", createdAt := 0, updatedAt := 0,
                deletedAt := none }] } : DB) 1 2 "A" 7).1 1 2 "A" =
      .error "failed to get environment variable: sql: no rows in result set" ∧
    activeRowsFor
      (SetEnvVariable
        (DeleteEnvVariable
          ({ projects := [],
             envVariables :=
               [{ id := 10, projectId := 1, environmentId := 2, key := "A",
                  value := "v1", createdAt := 0, updatedAt := 0,
                  deletedAt := none }] } : DB) 1 2 "A" 7).1
        1 2 "A" "v2" 9 55).1 1 2 "A" =
      [{ id := 10, projectId := 1, environmentId := 2, key := "A",
         value := "v2", createdAt := 0, updatedAt := 9, deletedAt := none }] := by
  have h := claim_C2_delete_then_get_then_set
    ({ projects := [],
       envVariables :=
         [{ id := 10, projectId := 1, environmentId := 2, key := "A",
            value := "v1", createdAt := 0, updatedAt := 0,
            deletedAt := none }] } : DB) 1 2 "A"
    { id := 10, projectId := 1, environmentId := 2, key := "A",
      value := "v1", createdAt := 0, updatedAt := 0, deletedAt := none }
    7 (List.pairwise_singleton _ _) (List.pairwise_singleton _ _) (by decide)
  exact ⟨h.2.1, (h.2.2 "v2" 9 55).2⟩

/-! ## Migration runner lemmas -/

theorem migrateLoop_cons (execOk : String → Bool) (applied0 : List String)
    (mig : Migration) (rest : List Migration) (st : MigState)
    (log : List String) :
    migrateLoop execOk applied0 (mig :: rest) st log =
      if applied0.contains (baseName mig.path) = true then
        migrateLoop execOk applied0 rest st log
      else if execOk mig.content = false then
        (st, log ++ [baseName mig.path],
         .error ("error executing migration " ++ baseName mig.path))
      else if st.appliedVersions.contains (baseName mig.path) = true then
        (st, log ++ [baseName mig.path],
         .error ("error recording migration " ++ baseName mig.path))
      else
        migrateLoop execOk applied0 rest
          { appliedVersions := st.appliedVersions ++ [baseName mig.path],
            sqlEffects := st.sqlEffects ++ [mig.content] }
          (log ++ [baseName mig.path]) := rfl

theorem migrateLoop_all_skip (execOk : String → Bool) (applied0 : List String)
    (migs : List Migration) (st : MigState) (log : List String)
    (hall : ∀ mig ∈ migs, applied0.contains (baseName mig.path) = true) :
    migrateLoop execOk applied0 migs st log = (st, log, .ok ()) := by
  revert hall
  induction migs with
  | nil => intro _; rfl
  | cons mig rest ih =>
    intro hall
    unfold migrateLoop
    rw [if_pos (hall mig (List.mem_cons_self _ _))]
    exact ih (fun m hm => hall m (List.mem_cons_of_mem _ hm))

theorem migrateLoop_ok_spec (execOk : String → Bool) (applied0 : List String) :
    ∀ (migs : List Migration) (st : MigState) (log : List String)
      (st1 : MigState) (log1 : List String),
      migrateLoop execOk applied0 migs st log = (st1, log1, .ok ()) →
      (∃ d, st1.appliedVersions = st.appliedVersions ++ d ∧ log1 = log ++ d) ∧
      (∃ cd, st1.sqlEffects = st.sqlEffects ++ cd ∧
        ∀ c ∈ cd, ∃ m ∈ migs, c = m.content) ∧
      (∀ mig ∈ migs, applied0.contains (baseName mig.path) = true ∨
        baseName mig.path ∈ st1.appliedVersions) := by
  intro migs
  induction migs with
  | nil =>
    intro st log st1 log1 h
    unfold migrateLoop at h
    injection h with ha hb
    injection hb with hb hc
    subst ha
    subst hb
    exact ⟨⟨[], by simp, by simp⟩, ⟨[], by simp, by simp⟩, by simp⟩
  | cons mig rest ih =>
    intro st log st1 log1 h
    unfold migrateLoop at h
    by_cases h1 : applied0.contains (baseName mig.path) = true
    · rw [if_pos h1] at h
      obtain ⟨⟨d, hd1, hd2⟩, ⟨cd, hc1, hc2⟩, hall⟩ := ih st log st1 log1 h
      refine ⟨⟨d, hd1, hd2⟩, ⟨cd, hc1, fun c hc => ?_⟩, ?_⟩
      · obtain ⟨m, hm, hcm⟩ := hc2 c hc
        exact ⟨m, List.mem_cons_of_mem _ hm, hcm⟩
      · intro m hm
        rcases List.mem_cons.mp hm with rfl | hm2
        · exact Or.inl h1
        · exact hall m hm2
    · rw [if_neg h1] at h
      by_cases h2 : execOk mig.content = false
      · rw [if_pos h2] at h
        simp at h
      · rw [if_neg h2] at h
        by_cases h3 : st.appliedVersions.contains (baseName mig.path) = true
        · rw [if_pos h3] at h
          simp at h
        · rw [if_neg h3] at h
          obtain ⟨⟨d, hd1, hd2⟩, ⟨cd, hc1, hc2⟩, hall⟩ := ih _ _ _ _ h
          refine ⟨⟨baseName mig.path :: d, ?_, ?_⟩,
            ⟨mig.content :: cd, ?_, ?_⟩, ?_⟩
          · rw [hd1]
            simp
          · rw [hd2]
            simp
          · rw [hc1]
            simp
          · intro c hc
            rcases List.mem_cons.mp hc with rfl | hcc
            · exact ⟨mig, List.mem_cons_self _ _, rfl⟩
            · obtain ⟨m, hm, hcm⟩ := hc2 c hcc
              exact ⟨m, List.mem_cons_of_mem _ hm, hcm⟩
          · intro m hm
            rcases List.mem_cons.mp hm with rfl | hm2
            · right
              rw [hd1]
              simp
            · rcases hall m hm2 with hA | hB
              · exact Or.inl hA
              · exact Or.inr hB

theorem migrateLoop_log_mem (execOk : String → Bool) (applied0 : List String) :
    ∀ (migs : List Migration) (st : MigState) (log : List String) (v : String),
      v ∈ (migrateLoop execOk applied0 migs st log).2.1 →
      v ∈ log ∨ applied0.contains v = false := by
  intro migs
  induction migs with
  | nil =>
    intro st log v hv
    exact Or.inl hv
  | cons mig rest ih =>
    intro st log v hv
    unfold migrateLoop at hv
    by_cases h1 : applied0.contains (baseName mig.path) = true
    · rw [if_pos h1] at hv
      exact ih st log v hv
    · rw [if_neg h1] at hv
      by_cases h2 : execOk mig.content = false
      · rw [if_pos h2] at hv
        rcases List.mem_append.mp hv with hA | hA
        · exact Or.inl hA
        · rw [List.mem_singleton] at hA
          subst hA
          exact Or.inr (by simpa using h1)
      · rw [if_neg h2] at hv
        by_cases h3 : st.appliedVersions.contains (baseName mig.path) = true
        · rw [if_pos h3] at hv
          rcases List.mem_append.mp hv with hA | hA
          · exact Or.inl hA
          · rw [List.mem_singleton] at hA
            subst hA
            exact Or.inr (by simpa using h1)
        · rw [if_neg h3] at hv
          rcases ih _ _ v hv with hA | hA
          · rcases List.mem_append.mp hA with hB | hB
            · exact Or.inl hB
            · rw [List.mem_singleton] at hB
              subst hB
              exact Or.inr (by simpa using h1)
          · exact Or.inr hA

theorem migrateLoop_ok_append (execOk : String → Bool) (applied0 : List String) :
    ∀ (xs ys : List Migration) (st : MigState) (log : List String)
      (st1 : MigState) (log1 : List String),
      migrateLoop execOk applied0 xs st log = (st1, log1, .ok ()) →
      migrateLoop execOk applied0 (xs ++ ys) st log =
        migrateLoop execOk applied0 ys st1 log1 := by
  intro xs
  induction xs with
  | nil =>
    intro ys st log st1 log1 h
    injection h with ha hb
    injection hb with hb hc
    subst ha
    subst hb
    rfl
  | cons mig rest ih =>
    intro ys st log st1 log1 h
    rw [List.cons_append, migrateLoop_cons]
    unfold migrateLoop at h
    by_cases h1 : applied0.contains (baseName mig.path) = true
    · rw [if_pos h1] at h
      rw [if_pos h1]
      exact ih ys st log st1 log1 h
    · rw [if_neg h1] at h
      rw [if_neg h1]
      by_cases h2 : execOk mig.content = false
      · rw [if_pos h2] at h
        simp at h
      · rw [if_neg h2] at h
        rw [if_neg h2]
        by_cases h3 : st.appliedVersions.contains (baseName mig.path) = true
        · rw [if_pos h3] at h
          simp at h
        · rw [if_neg h3] at h
          rw [if_neg h3]
          exact ih ys _ _ st1 log1 h

/-! ## Claim theorems: migration runner -/

/-- Claim C4: the migration runner applies each discovered file at most once,
in ascending filename order — discovery sorts by full path, a file whose
basename is already recorded is skipped (its SQL is never executed), a
successful run records exactly one bookkeeping row per executed migration in
run order, and a second run over the same database executes no migration SQL
and leaves the state unchanged. -/
theorem claim_C4_migrate_up_idempotent :
    (∀ files : List Migration,
      (NewMigrationManager files).Chain' (fun a b => strLe a.path b.path = true)) ∧
    (∀ (execOk : String → Bool) (migs : List Migration) (st : MigState)
       (v : String), v ∈ st.appliedVersions →
      v ∉ (MigrateUp execOk migs st).2.1) ∧
    (∀ (execOk : String → Bool) (migs : List Migration) (st st1 : MigState)
       (log1 : List String),
      MigrateUp execOk migs st = (st1, log1, .ok ()) →
      st1.appliedVersions = st.appliedVersions ++ log1 ∧
      MigrateUp execOk migs st1 = (st1, [], .ok ())) := by
  refine ⟨?_, ?_, ?_⟩
  · intro files
    exact chain'_sortBy (fun (a b : Migration) => strLeChars_total a.path.data b.path.data) _
  · intro execOk migs st v hv hlog
    rcases migrateLoop_log_mem execOk st.appliedVersions migs st [] v hlog with hA | hA
    · exact List.not_mem_nil v hA
    · have hc := string_contains_iff.mpr hv
      rw [hA] at hc
      exact Bool.false_ne_true hc
  · intro execOk migs st st1 log1 h
    have h' : migrateLoop execOk st.appliedVersions migs st [] =
        (st1, log1, .ok ()) := h
    obtain ⟨⟨d, hd1, hd2⟩, -, hall⟩ :=
      migrateLoop_ok_spec execOk st.appliedVersions migs st [] st1 log1 h'
    have hld : log1 = d := by simpa using hd2
    constructor
    · rw [hd1, hld]
    · have hall2 : ∀ mig ∈ migs,
          st1.appliedVersions.contains (baseName mig.path) = true := by
        intro m hm
        rcases hall m hm with hA | hB
        · rw [string_contains_iff] at hA ⊢
          rw [hd1]
          exact List.mem_append.mpr (Or.inl hA)
        · exact string_contains_iff.mpr hB
      exact migrateLoop_all_skip execOk st1.appliedVersions migs st1 [] hall2

/-- Witness for C4: running two fresh migrations succeeds, records their
basenames in order, and the immediate second run does nothing. -/
theorem claim_C4_migrate_up_idempotent_witness :
    ({ appliedVersions := ["a.sql", "b.sql"],
       sqlEffects := ["SQLA", "SQLB"] } : MigState).appliedVersions =
      ({ appliedVersions := [], sqlEffects := [] } : MigState).appliedVersions ++
        ["a.sql", "b.sql"] ∧
    MigrateUp (fun _ => true)
      [{ path := "a.sql", content := "SQLA" },
       { path := "b.sql", content := "SQLB" }]
      ({ appliedVersions := ["a.sql", "b.sql"],
         sqlEffects := ["SQLA", "SQLB"] } : MigState) =
      ({ appliedVersions := ["a.sql", "b.sql"],
         sqlEffects := ["SQLA", "SQLB"] }, [], .ok ()) :=
  claim_C4_migrate_up_idempotent.2.2 (fun _ => true)
    [{ path := "a.sql", content := "SQLA" },
     { path := "b.sql", content := "SQLB" }]
    { appliedVersions := [], sqlEffects := [] }
    { appliedVersions := ["a.sql", "b.sql"], sqlEffects := ["SQLA", "SQLB"] }
    ["a.sql", "b.sql"] (by rfl)

/-- Claim C5: when a migration's SQL fails, that file's transaction is rolled
back — the final state is exactly the state the earlier files of the run
produced, so neither the failing file's SQL effects nor its bookkeeping row
persist — the run aborts immediately with the execution error (no later file
is attempted: the executed log ends at the failing file), while the
migrations committed earlier in the same run remain committed. -/
theorem claim_C5_migration_failure_aborts (execOk : String → Bool)
    (st0 st1 : MigState) (pre post : List Migration) (bad : Migration)
    (log1 : List String)
    (hpre : MigrateUp execOk pre st0 = (st1, log1, .ok ()))
    (hnotskip : st0.appliedVersions.contains (baseName bad.path) = false)
    (hfail : execOk bad.content = false) :
    MigrateUp execOk (pre ++ bad :: post) st0 =
      (st1, log1 ++ [baseName bad.path],
       .error ("error executing migration " ++ baseName bad.path)) ∧
    (∃ cd, st1.sqlEffects = st0.sqlEffects ++ cd ∧
      ∀ c ∈ cd, ∃ m ∈ pre, c = m.content) ∧
    st1.appliedVersions = st0.appliedVersions ++ log1 := by
  have h' : migrateLoop execOk st0.appliedVersions pre st0 [] =
      (st1, log1, .ok ()) := hpre
  obtain ⟨⟨d, hd1, hd2⟩, ⟨cd, hc1, hc2⟩, -⟩ :=
    migrateLoop_ok_spec execOk st0.appliedVersions pre st0 [] st1 log1 h'
  have hld : log1 = d := by simpa using hd2
  refine ⟨?_, ⟨cd, hc1, hc2⟩, by rw [hd1, hld]⟩
  show migrateLoop execOk st0.appliedVersions (pre ++ bad :: post) st0 [] = _
  rw [migrateLoop_ok_append execOk st0.appliedVersions pre (bad :: post)
    st0 [] st1 log1 h']
  rw [migrateLoop_cons,
    if_neg (show ¬ (st0.appliedVersions.contains (baseName bad.path) = true) from by
      rw [hnotskip]; exact Bool.false_ne_true),
    if_pos hfail]

/-- Witness for C5: with `"BAD"` SQL failing, a run over `a.sql`, `b.sql`
(bad), `c.sql` commits only `a.sql`, logs the failed execution of `b.sql`,
and aborts without touching `c.sql`. -/
theorem claim_C5_migration_failure_aborts_witness :
    MigrateUp (fun s => !(s == "BAD"))
      ([{ path := "a.sql", content := "SQLA" }] ++
        { path := "b.sql", content := "BAD" } ::
          [{ path := "c.sql", content := "SQLC" }])
      ({ appliedVersions := [], sqlEffects := [] } : MigState) =
      ({ appliedVersions := ["a.sql"], sqlEffects := ["SQLA"] },
       ["a.sql"] ++ [baseName "b.sql"],
       .error ("error executing migration " ++ baseName "b.sql")) :=
  (claim_C5_migration_failure_aborts (fun s => !(s == "BAD"))
    { appliedVersions := [], sqlEffects := [] }
    { appliedVersions := ["a.sql"], sqlEffects := ["SQLA"] }
    [{ path := "a.sql", content := "SQLA" }]
    [{ path := "c.sql", content := "SQLC" }]
    { path := "b.sql", content := "BAD" }
    ["a.sql"] (by rfl) (by rfl) (by rfl)).1
